import Mathlib

/-!
Verification of the bout-analysis core of `behavior_analysis.py`
(Bout Loader, Bout Cleaner, Clip Extractor, Gallery Assembler).

Frame indices are Python ints, embedded as `Int`.  The external
`ast.literal_eval` call of the loader is stdlib functionality outside the
repository; its *result* on one input line is embedded as the abstract type
`Line` below (blank line / syntax error / successfully evaluated Python
literal), and everything the repository's own code does with that result is
modelled faithfully.
-/

namespace BehaviorAnalysis

/-- A Python literal value, as produced by `ast.literal_eval` on one line.
Only the constructors relevant to the loader's checks are carried:
`int`, `bool` (a subtype of `int` in Python, so `isinstance(x, int)` holds
for it), and the containers / other scalars the `isinstance` tests reject. -/
inductive PyLit where
  | int (n : Int)
  | bool (b : Bool)
  | str (s : String)
  | tuple (xs : List PyLit)
  | list (xs : List PyLit)
  | none
deriving Repr

/-- `isinstance(x, int)` in Python: true for `int` and for `bool`
(Python's `bool` is a subclass of `int`). -/
def PyLit.isInstInt : PyLit → Bool
  | .int _ => true
  | .bool _ => true
  | _ => false

/-- `int(x)` on a value for which `isinstance(x, int)` holds. -/
def PyLit.toInt : PyLit → Int
  | .int n => n
  | .bool b => if b then 1 else 0
  | _ => 0

/-- One line of a bout text file, abstracted past `ast.literal_eval`:
either blank (only whitespace), or non-blank and syntactically invalid
(`literal_eval` raises), or non-blank and evaluating to the literal `v`. -/
inductive Line where
  | blank
  | invalid
  | lit (v : PyLit)
deriving Repr

/-- Whether the line is blank (`not line.strip()`). -/
def Line.isBlank : Line → Bool
  | .blank => true
  | _ => false

/-- `parse_tuple` (src/behavior_analysis.py:57-66): evaluate the line as a
Python literal; if the result is a list or tuple of length 2 whose members
both satisfy `isinstance(x, int)`, return `(int(tup[0]), int(tup[1]))`,
otherwise raise `ValueError`.  A blank or malformed line makes
`ast.literal_eval` itself raise. -/
def parse_tuple : Line → Except String (Int × Int)
  | .blank => .error "SyntaxError"
  | .invalid => .error "SyntaxError"
  | .lit v =>
    match v with
    | .tuple [a, b] =>
      if a.isInstInt && b.isInstInt then .ok (a.toInt, b.toInt)
      else .error "Invalid bout tuple"
    | .list [a, b] =>
      if a.isInstInt && b.isInstInt then .ok (a.toInt, b.toInt)
      else .error "Invalid bout tuple"
    | _ => .error "Invalid bout tuple"

/-- The list comprehension of `load_bouts`: parse every non-blank line in
order, propagating the first parse failure. -/
def parseLines : List Line → Except String (List (Int × Int))
  | [] => .ok []
  | l :: ls =>
    if l.isBlank then parseLines ls
    else
      match parse_tuple l with
      | .error e => .error e
      | .ok p =>
        match parseLines ls with
        | .error e => .error e
        | .ok ps => .ok (p :: ps)

/-- `load_bouts` (src/behavior_analysis.py:69-72): parse each non-blank
line with `parse_tuple`, then sort the pairs by their first component.
Python's `list.sort(key=...)` is a stable sort; the stable sorted
permutation under a total key order is unique, so it is embedded as the
stable `List.insertionSort`. -/
def load_bouts (lines : List Line) : Except String (List (Int × Int)) :=
  match parseLines lines with
  | .error e => .error e
  | .ok bs => .ok (bs.insertionSort (fun a b => a.1 ≤ b.1))

/-- `clean_bouts` (src/behavior_analysis.py:75-93), the while loop written
as recursion on the suffix of `raw_bouts` starting at the scan index `i`:
a bout of duration `end - start + 1 < 3` is merged with the next bout when
one exists at gap `< 10` (consuming both), dropped otherwise; a bout of
duration `≥ 3` is kept unchanged. -/
def clean_bouts : List (Int × Int) → List (Int × Int)
  | [] => []
  | [(s, e)] => if e - s + 1 ≥ 3 then [(s, e)] else []
  | (s, e) :: (ns, ne) :: rest =>
    if e - s + 1 < 3 then
      if ns - e < 10 then (s, ne) :: clean_bouts rest
      else clean_bouts ((ns, ne) :: rest)
    else (s, e) :: clean_bouts ((ns, ne) :: rest)

/-- The Bout Cleaner algorithm transcribed from the specification's own
wording (section 4.2), for comparison with `clean_bouts`: fixed thresholds
`MIN_DURATION = 3`, `MERGE_GAP = 10`; at each position compute the current
duration; if it is `< MIN_DURATION` and a next bout exists and the gap
`next.start - current.end` is `< MERGE_GAP`, emit `(current.start,
next.end)` and advance past both; if `< MIN_DURATION` otherwise, drop and
advance by one; if `≥ MIN_DURATION`, keep and advance by one. -/
def cleanBoutsSpec (minDuration mergeGap : Int) : List (Int × Int) → List (Int × Int)
  | [] => []
  | [cur] =>
    if cur.2 - cur.1 + 1 < minDuration then [] else [cur]
  | cur :: nxt :: rest2 =>
    if cur.2 - cur.1 + 1 < minDuration then
      if nxt.1 - cur.2 < mergeGap then
        (cur.1, nxt.2) :: cleanBoutsSpec minDuration mergeGap rest2
      else cleanBoutsSpec minDuration mergeGap (nxt :: rest2)
    else cur :: cleanBoutsSpec minDuration mergeGap (nxt :: rest2)

/-- Duration of a bout: `end - start + 1` (frames, closed interval). -/
def boutDur (b : Int × Int) : Int := b.2 - b.1 + 1

/-- `b` is the merge of two adjacent bouts of `raw`: for some consecutive
pair `p, q` of `raw`, `b = (p.start, q.end)`. -/
def IsAdjacentMerge (raw : List (Int × Int)) (b : Int × Int) : Prop :=
  ∃ l₁ p q l₂, raw = l₁ ++ p :: q :: l₂ ∧ b = (p.1, q.2)

/-- The specification's notion of a well-formed input line for the Bout
Loader, transcribed from its words: a syntactically valid 2-element
integer tuple (anything else — non-integer elements, wrong arity,
malformed syntax — is to be rejected with a parse error). -/
def isValid2IntTupleLine : Line → Bool
  | .lit (.tuple [.int _, .int _]) => true
  | _ => false

/-- The lines the loader's code actually accepts: a 2-element tuple *or
list* whose members satisfy Python's `isinstance(x, int)` (so `bool`
members are accepted too). -/
def isValid2IntSeqLine : Line → Bool
  | .lit (.tuple [a, b]) => a.isInstInt && b.isInstInt
  | .lit (.list [a, b]) => a.isInstInt && b.isInstInt
  | _ => false

/-- The pair a line parses to, when it parses at all, satisfies
`start ≤ end`.  (The loader itself never checks this.) -/
def lineEndGeStart (l : Line) : Bool :=
  match parse_tuple l with
  | .ok p => p.1 ≤ p.2
  | .error _ => true

/-! ### Clip Extractor -/

/-- Observable outcome of `extract_sample_clips`: the returned value (or
the raised error), whether the source video was opened, and the clip files
written. -/
structure ClipOutcome where
  result : Except String (List String)
  openedVideo : Bool
  written : List String
deriving Repr

/-- `extract_sample_clips` (src/behavior_analysis.py:110-135).  The module
constant `SAMPLES_PER_BEHAVIOUR` and the availability of `VideoFileClip`
(`None` when the `moviepy` import failed) are parameters; the per-clip
time arithmetic and encoding are delegated to the external video library
and are not observable here, so the model records which files the loop
writes.  Order of checks as in the source: the `SAMPLES_PER_BEHAVIOUR <= 0`
early return comes before the missing-`moviepy` check. -/
def extract_sample_clips (videoFileClipAvailable : Bool)
    (samplesPerBehaviour : Int) (bouts : List (Int × Int))
    (behaviour : String) : ClipOutcome :=
  if samplesPerBehaviour ≤ 0 then ⟨.ok [], false, []⟩
  else if !videoFileClipAvailable then
    ⟨.error "moviepy missing", false, []⟩
  else
    let names := (bouts.take samplesPerBehaviour.toNat).enum.map
      (fun p => behaviour ++ "_" ++ toString p.1 ++ ".mp4")
    ⟨.ok names, true, names⟩

/-! ### Gallery Assembler -/

/-- `IMG_EXTENSIONS` (src/behavior_analysis.py:49). -/
def IMG_EXTENSIONS : List String := [".png", ".jpg", ".jpeg", ".gif"]

/-- `VIDEO_EXTENSIONS` (src/behavior_analysis.py:50). -/
def VIDEO_EXTENSIONS : List String := [".mp4", ".webm", ".mov", ".avi"]

/-- The characters after the last path separator: `pathlib.Path(s).name`
for a plain relative or absolute POSIX-style path. -/
def pathName (cs : List Char) : List Char :=
  cs.foldl (fun acc c => if c = '/' then [] else acc.concat c) []

/-- `name.rfind(c)`: index of the last occurrence of `c`, if any. -/
def rfindIdx (cs : List Char) (c : Char) : Option Nat :=
  match cs.reverse.indexOf? c with
  | Option.none => Option.none
  | some r => some (cs.length - 1 - r)

/-- `pathlib.Path(s).suffix`: the extension of the final path component
`name`, i.e. `name[i:]` for `i = name.rfind(".")` when
`0 < i < len(name) - 1`, and `""` otherwise. -/
def pySuffix (s : String) : String :=
  let name := pathName s.data
  match rfindIdx name '.' with
  | Option.none => ""
  | some i =>
    if 0 < i ∧ i < name.length - 1 then String.mk (name.drop i) else ""

/-- `str.lower()`, embedded characterwise (ASCII suffices for the
extension comparisons it is used for). -/
def strLower (s : String) : String :=
  String.mk (s.data.map Char.toLower)

/-- The single `f.write` that opens a behaviour's gallery section:
`<h2>` heading plus the flex container `<div>`. -/
def headingChunk (behaviour : String) : String :=
  "<h2>" ++ behaviour ++ "</h2>\n<div style=\x27display:flex;flex-wrap:wrap;gap:20px\x27>\n"

/-- The `f.write` calls one asset produces inside its section: an `<img>`
for an image extension, a `<video>` player for a video extension, nothing
otherwise. -/
def assetChunks (asset : String) : List String :=
  let ext := strLower (pySuffix asset)
  if ext ∈ IMG_EXTENSIONS then
    ["<img src=\x27" ++ asset ++ "\x27 style=\x27max-width:400px;margin-bottom:10px;\x27>\n"]
  else if ext ∈ VIDEO_EXTENSIONS then
    ["<video width=\x27320\x27 controls style=\x27margin-bottom:10px;\x27>\n" ++
      "  <source src=\x27" ++ asset ++ "\x27 type=\x27video/mp4\x27>\n" ++
      "</video>\n"]
  else []

/-- The `f.write` calls one `(behaviour, assets)` entry of the mapping
produces: nothing when `assets` is empty (`if not assets: continue`),
otherwise the heading/container write, the per-asset writes, and the
closing `</div>`. -/
def sectionChunks (behaviour : String) (assets : List String) : List String :=
  if assets.isEmpty then []
  else headingChunk behaviour :: (assets.flatMap assetChunks ++ ["</div>\n"])

/-- `write_html_gallery` (src/behavior_analysis.py:138-163) as the ordered
sequence of strings written to `gallery.html`.  The `dict` argument is an
insertion-ordered association list. -/
def write_html_gallery (behaviourAssets : List (String × List String)) : List String :=
  ["<html><head><title>Behaviour Gallery</title></head><body>\n",
   "<h1>Behaviour Histograms & Sample Clips</h1>\n"] ++
  behaviourAssets.flatMap (fun p => sectionChunks p.1 p.2) ++
  ["</body></html>"]

/-!
## Theorems
-/

/-- Scenario sanity checks for the Cleaner (spec section 8). -/
theorem clean_bouts_scenarios :
    clean_bouts [(0, 1), (5, 20)] = [(0, 20)] ∧
    clean_bouts [(0, 1), (50, 60)] = [(50, 60)] ∧
    clean_bouts [(0, 10)] = [(0, 10)] ∧
    clean_bouts [] = [] := by
  decide

/-- Path-suffix extraction behaves like `pathlib.Path(...).suffix`. -/
theorem pySuffix_samples :
    pySuffix "walk_histogram.png" = ".png" ∧ pySuffix "a.txt" = ".txt" ∧
    pySuffix "noext" = "" ∧ pySuffix ".bashrc" = "" := by
  decide

/-- Every bout in the Cleaner's output is either an input bout that was
kept because its duration is at least 3, or the merge `(p.start, q.end)`
of two adjacent input bouts `p, q` where `p` is short and the gap to `q`
is under 10. -/
theorem clean_bouts_mem_cases (raw : List (Int × Int)) (b : Int × Int)
    (hb : b ∈ clean_bouts raw) :
    (b ∈ raw ∧ 3 ≤ boutDur b) ∨
    (∃ l₁ p q l₂, raw = l₁ ++ p :: q :: l₂ ∧ b = (p.1, q.2) ∧
      boutDur p < 3 ∧ q.1 - p.2 < 10) := by
  induction raw using clean_bouts.induct with
  | case1 => simp [clean_bouts] at hb
  | case2 s e h =>
    rw [clean_bouts, if_pos h] at hb
    rcases List.mem_singleton.mp hb with rfl
    exact Or.inl ⟨List.mem_singleton.mpr rfl, h⟩
  | case3 s e h =>
    rw [clean_bouts, if_neg h] at hb
    simp at hb
  | case4 s e ns ne rest h1 h2 ih =>
    rw [clean_bouts, if_pos h1, if_pos h2] at hb
    rcases List.mem_cons.mp hb with rfl | hb'
    · exact Or.inr ⟨[], (s, e), (ns, ne), rest, rfl, rfl, h1, h2⟩
    · rcases ih hb' with ⟨hm, hd⟩ | ⟨l₁, p, q, l₂, hdec, hbe, hp, hq⟩
      · exact Or.inl ⟨by simp [hm], hd⟩
      · exact Or.inr ⟨(s, e) :: (ns, ne) :: l₁, p, q, l₂, by rw [hdec]; rfl,
          hbe, hp, hq⟩
  | case5 s e ns ne rest h1 h2 ih =>
    rw [clean_bouts, if_pos h1, if_neg h2] at hb
    rcases ih hb with ⟨hm, hd⟩ | ⟨l₁, p, q, l₂, hdec, hbe, hp, hq⟩
    · exact Or.inl ⟨by simp [hm], hd⟩
    · exact Or.inr ⟨(s, e) :: l₁, p, q, l₂, by rw [hdec]; rfl, hbe, hp, hq⟩
  | case6 s e ns ne rest h1 ih =>
    rw [clean_bouts, if_neg h1] at hb
    rcases List.mem_cons.mp hb with rfl | hb'
    · exact Or.inl ⟨List.mem_cons_self _ _, by simpa [boutDur] using h1⟩
    · rcases ih hb' with ⟨hm, hd⟩ | ⟨l₁, p, q, l₂, hdec, hbe, hp, hq⟩
      · exact Or.inl ⟨by simp [hm], hd⟩
      · exact Or.inr ⟨(s, e) :: l₁, p, q, l₂, by rw [hdec]; rfl, hbe, hp, hq⟩

/-- The start frame of every cleaned bout is the start frame of some raw
bout. -/
theorem clean_bouts_start_mem (raw : List (Int × Int)) (b : Int × Int)
    (hb : b ∈ clean_bouts raw) : ∃ p ∈ raw, b.1 = p.1 := by
  rcases clean_bouts_mem_cases raw b hb with ⟨hm, _⟩ |
    ⟨l₁, p, q, l₂, hdec, hbe, _, _⟩
  · exact ⟨b, hm, rfl⟩
  · exact ⟨p, by simp [hdec], by rw [hbe]⟩

/-- A list whose bouts all have duration at least 3 is a fixed point of
the Cleaner. -/
theorem clean_bouts_fixed (l : List (Int × Int))
    (h : ∀ b ∈ l, 3 ≤ boutDur b) : clean_bouts l = l := by
  induction l using clean_bouts.induct with
  | case1 => rfl
  | case2 s e hd => rw [clean_bouts, if_pos hd]
  | case3 s e hd =>
    exact absurd (h (s, e) (List.mem_singleton.mpr rfl)) (by simpa [boutDur] using hd)
  | case4 s e ns ne rest h1 h2 ih =>
    exact absurd (h (s, e) (List.mem_cons_self _ _)) (by simpa [boutDur] using h1)
  | case5 s e ns ne rest h1 h2 ih =>
    exact absurd (h (s, e) (List.mem_cons_self _ _)) (by simpa [boutDur] using h1)
  | case6 s e ns ne rest h1 ih =>
    rw [clean_bouts, if_neg h1, ih (fun b hb => h b (List.mem_cons_of_mem _ hb))]

/-- C1 (counterexample): the Cleaner is not idempotent on every sorted
input.  On the sorted, non-overlapping input `[(0,0),(1,1)]` one run
merges the two one-frame bouts into `(0,1)` (gap `1 - 0 < 10`), whose
duration `2` is still under 3, so a second run drops it: the outputs
`[]` and `[(0,1)]` differ. -/
theorem C1_clean_bouts_not_idempotent :
    clean_bouts (clean_bouts [(0, 0), (1, 1)]) ≠ clean_bouts [(0, 0), (1, 1)] := by
  decide

/-- C1 (amended): the Cleaner is idempotent on every input whose cleaned
output consists only of bouts of duration ≥ 3 — and a merge is the only
way the output can contain a shorter bout. -/
theorem C1_clean_bouts_idempotent (bouts : List (Int × Int))
    (h : ∀ b ∈ clean_bouts bouts, 3 ≤ boutDur b) :
    clean_bouts (clean_bouts bouts) = clean_bouts bouts :=
  clean_bouts_fixed (clean_bouts bouts) h

/-- C1 witness: the amended idempotence theorem applied to the concrete
input `[(0,10)]`, whose cleaned output `[(0,10)]` has only long bouts. -/
theorem C1_clean_bouts_idempotent_witness :
    (∀ b ∈ clean_bouts [((0 : Int), (10 : Int))], 3 ≤ boutDur b) ∧
    clean_bouts (clean_bouts [((0 : Int), (10 : Int))]) = clean_bouts [((0 : Int), (10 : Int))] :=
  ⟨by decide, C1_clean_bouts_idempotent [(0, 10)] (by decide)⟩

/-- C2: every bout in the Cleaner's output has duration `end - start + 1
≥ 3` or is the merge `(p.start, q.end)` of two adjacent raw bouts. -/
theorem C2_short_output_is_merge (raw : List (Int × Int)) (b : Int × Int)
    (hb : b ∈ clean_bouts raw) :
    3 ≤ boutDur b ∨ IsAdjacentMerge raw b := by
  rcases clean_bouts_mem_cases raw b hb with ⟨_, hd⟩ |
    ⟨l₁, p, q, l₂, hdec, hbe, _, _⟩
  · exact Or.inl hd
  · exact Or.inr ⟨l₁, p, q, l₂, hdec, hbe⟩

/-- C2 witness: applied to the concrete input `[(0,0),(1,1)]` and its
output bout `(0,1)` (a merge of duration 2). -/
theorem C2_short_output_is_merge_witness :
    ((0 : Int), (1 : Int)) ∈ clean_bouts [(0, 0), (1, 1)] ∧
    (3 ≤ boutDur (0, 1) ∨ IsAdjacentMerge [(0, 0), (1, 1)] (0, 1)) :=
  ⟨by decide, C2_short_output_is_merge [(0, 0), (1, 1)] (0, 1) (by decide)⟩

/-- The Cleaner of the code computes exactly the single left-to-right
pass described by the specification, with `MIN_DURATION = 3` and
`MERGE_GAP = 10`. -/
theorem cleanBoutsSpec_eq_clean_bouts (l : List (Int × Int)) :
    cleanBoutsSpec 3 10 l = clean_bouts l := by
  induction l using clean_bouts.induct with
  | case1 => rfl
  | case2 s e h =>
    simp only [cleanBoutsSpec, clean_bouts]
    rw [if_neg (by omega), if_pos h]
  | case3 s e h =>
    simp only [cleanBoutsSpec, clean_bouts]
    rw [if_pos (by omega), if_neg h]
  | case4 s e ns ne rest h1 h2 ih =>
    simp only [cleanBoutsSpec, clean_bouts]
    rw [if_pos h1, if_pos h2, if_pos h1, if_pos h2, ih]
  | case5 s e ns ne rest h1 h2 ih =>
    simp only [cleanBoutsSpec, clean_bouts]
    rw [if_pos h1, if_neg h2, if_pos h1, if_neg h2, ih]
  | case6 s e ns ne rest h1 ih =>
    simp only [cleanBoutsSpec, clean_bouts]
    rw [if_neg h1, if_neg h1, ih]

/-- C3: `clean_bouts` implements exactly the specified single
left-to-right pass (it agrees with the algorithm transcribed from the
spec's words at thresholds 3 and 10 on every input), and the two quoted
scenarios hold: `[(0,1),(5,20)]` merges to `[(0,20)]` and
`[(0,1),(50,60)]` drops the short bout, giving `[(50,60)]`. -/
theorem C3_single_pass_refinement :
    (∀ l, cleanBoutsSpec 3 10 l = clean_bouts l) ∧
    clean_bouts [(0, 1), (5, 20)] = [(0, 20)] ∧
    clean_bouts [(0, 1), (50, 60)] = [(50, 60)] :=
  ⟨cleanBoutsSpec_eq_clean_bouts, by decide, by decide⟩

/-- C4: on a well-formed input (each bout has `start ≤ end`, bouts
pairwise non-overlapping in order), every bout emitted by the Cleaner is
either one of the input bouts or the merge `(p.start, q.end)` of two
consecutive input bouts `p, q` — nothing not derivable from the input —
and in the merge case both replaced input bouts lie inside the emitted
bout's span. -/
theorem C4_cleaned_derivable_from_raw (raw : List (Int × Int))
    (hwf : ∀ p ∈ raw, p.1 ≤ p.2)
    (hno : raw.Pairwise fun a b => a.2 < b.1)
    (b : Int × Int) (hb : b ∈ clean_bouts raw) :
    b ∈ raw ∨
    ∃ l₁ p q l₂, raw = l₁ ++ p :: q :: l₂ ∧ b = (p.1, q.2) ∧
      b.1 ≤ p.1 ∧ p.2 ≤ b.2 ∧ b.1 ≤ q.1 ∧ q.2 ≤ b.2 := by
  rcases clean_bouts_mem_cases raw b hb with ⟨hm, _⟩ |
    ⟨l₁, p, q, l₂, hdec, hbe, _, _⟩
  · exact Or.inl hm
  · have hsub : (p :: q :: l₂).Sublist raw := by
      rw [hdec]; exact List.sublist_append_right l₁ _
    have hpq : p.2 < q.1 :=
      (List.pairwise_cons.mp (hno.sublist hsub)).1 q (List.mem_cons_self _ _)
    have hpw : p.1 ≤ p.2 := hwf p (by simp [hdec])
    have hqw : q.1 ≤ q.2 := hwf q (by simp [hdec])
    subst hbe
    exact Or.inr ⟨l₁, p, q, l₂, hdec, rfl, le_refl _, by simp; omega,
      by simp; omega, le_refl _⟩

/-- C4 witness: applied to the well-formed input `[(0,0),(1,1)]` and its
output bout `(0,1)`. -/
theorem C4_cleaned_derivable_from_raw_witness :
    (∀ p ∈ [((0 : Int), (0 : Int)), ((1 : Int), (1 : Int))], p.1 ≤ p.2) ∧
    ([((0 : Int), (0 : Int)), ((1 : Int), (1 : Int))].Pairwise fun a b => a.2 < b.1) ∧
    (((0 : Int), (1 : Int)) ∈ clean_bouts [(0, 0), (1, 1)]) ∧
    (((0 : Int), (1 : Int)) ∈ [((0 : Int), (0 : Int)), ((1 : Int), (1 : Int))] ∨
     ∃ l₁ p q l₂,
       [((0 : Int), (0 : Int)), ((1 : Int), (1 : Int))] = l₁ ++ p :: q :: l₂ ∧
       ((0 : Int), (1 : Int)) = (p.1, q.2) ∧
       (0 : Int) ≤ p.1 ∧ p.2 ≤ (1 : Int) ∧ (0 : Int) ≤ q.1 ∧ q.2 ≤ (1 : Int)) :=
  ⟨by decide, by decide, by decide,
    C4_cleaned_derivable_from_raw [(0, 0), (1, 1)] (by decide) (by decide)
      (0, 1) (by decide)⟩

/-- On a well-formed input the Cleaner's output is pairwise ordered both
by start frame and end-before-start (the one induction behind C5). -/
theorem clean_bouts_pairwise (raw : List (Int × Int))
    (hwf : ∀ p ∈ raw, p.1 ≤ p.2)
    (hno : raw.Pairwise fun a b => a.2 < b.1) :
    (clean_bouts raw).Pairwise fun a b => a.1 < b.1 ∧ a.2 < b.1 := by
  induction raw using clean_bouts.induct with
  | case1 => exact List.Pairwise.nil
  | case2 s e h => rw [clean_bouts, if_pos h]; exact List.pairwise_singleton _ _
  | case3 s e h => rw [clean_bouts, if_neg h]; exact List.Pairwise.nil
  | case4 s e ns ne rest h1 h2 ih =>
    rw [clean_bouts, if_pos h1, if_pos h2]
    refine List.pairwise_cons.mpr ⟨?_, ?_⟩
    · intro y hy
      obtain ⟨p, hp, hy1⟩ := clean_bouts_start_mem rest y hy
      have h1p : (s, e).2 < p.1 :=
        (List.pairwise_cons.mp hno).1 p (List.mem_cons_of_mem _ hp)
      have h2p : (ns, ne).2 < p.1 :=
        (List.pairwise_cons.mp hno.of_cons).1 p hp
      have hse : s ≤ e := hwf (s, e) (List.mem_cons_self _ _)
      simp only at h1p h2p
      constructor
      · simp only; omega
      · simp only; omega
    · exact ih (fun p hp => hwf p (List.mem_cons_of_mem _ (List.mem_cons_of_mem _ hp)))
        hno.of_cons.of_cons
  | case5 s e ns ne rest h1 h2 ih =>
    rw [clean_bouts, if_pos h1, if_neg h2]
    exact ih (fun p hp => hwf p (List.mem_cons_of_mem _ hp)) hno.of_cons
  | case6 s e ns ne rest h1 ih =>
    rw [clean_bouts, if_neg h1]
    refine List.pairwise_cons.mpr ⟨?_, ?_⟩
    · intro y hy
      obtain ⟨p, hp, hy1⟩ := clean_bouts_start_mem _ y hy
      have h1p : (s, e).2 < p.1 := (List.pairwise_cons.mp hno).1 p hp
      have hse : s ≤ e := hwf (s, e) (List.mem_cons_self _ _)
      simp only at h1p
      constructor
      · simp only; omega
      · simp only; omega
    · exact ih (fun p hp => hwf p (List.mem_cons_of_mem _ hp)) hno.of_cons

/-- C5: for every input that is well formed (each bout has
`start ≤ end`), sorted, and non-overlapping (pairwise, each bout ends
before the next starts), the Cleaner's output is strictly ascending by
start frame and contains no overlapping bouts. -/
theorem C5_output_sorted_nonoverlapping (raw : List (Int × Int))
    (hwf : ∀ p ∈ raw, p.1 ≤ p.2)
    (hno : raw.Pairwise fun a b => a.2 < b.1) :
    ((clean_bouts raw).Pairwise fun a b => a.1 < b.1) ∧
    ((clean_bouts raw).Pairwise fun a b => a.2 < b.1) :=
  ⟨(clean_bouts_pairwise raw hwf hno).imp fun h => h.1,
   (clean_bouts_pairwise raw hwf hno).imp fun h => h.2⟩

/-- C5 witness: applied to the concrete input `[(0,1),(5,20),(40,41)]`
(one merge, one keep, one drop). -/
theorem C5_output_sorted_nonoverlapping_witness :
    (∀ p ∈ [((0 : Int), (1 : Int)), ((5 : Int), (20 : Int)), ((40 : Int), (41 : Int))], p.1 ≤ p.2) ∧
    ([((0 : Int), (1 : Int)), ((5 : Int), (20 : Int)), ((40 : Int), (41 : Int))].Pairwise
      fun a b => a.2 < b.1) ∧
    ((clean_bouts [(0, 1), (5, 20), (40, 41)]).Pairwise fun a b => a.1 < b.1) ∧
    ((clean_bouts [(0, 1), (5, 20), (40, 41)]).Pairwise fun a b => a.2 < b.1) :=
  ⟨by decide, by decide,
    (C5_output_sorted_nonoverlapping [(0, 1), (5, 20), (40, 41)] (by decide) (by decide)).1,
    (C5_output_sorted_nonoverlapping [(0, 1), (5, 20), (40, 41)] (by decide) (by decide)).2⟩

/-- A line fails `parse_tuple` exactly when it is not a 2-element tuple
or list of Python ints (blank and malformed lines fail too). -/
theorem parse_tuple_error_iff (l : Line) :
    (∃ e, parse_tuple l = .error e) ↔ isValid2IntSeqLine l = false := by
  cases l with
  | blank => simp [parse_tuple, isValid2IntSeqLine]
  | invalid => simp [parse_tuple, isValid2IntSeqLine]
  | lit v =>
    cases v with
    | int n => simp [parse_tuple, isValid2IntSeqLine]
    | bool b => simp [parse_tuple, isValid2IntSeqLine]
    | str s => simp [parse_tuple, isValid2IntSeqLine]
    | none => simp [parse_tuple, isValid2IntSeqLine]
    | tuple xs =>
      match xs with
      | [] => simp [parse_tuple, isValid2IntSeqLine]
      | [a] => simp [parse_tuple, isValid2IntSeqLine]
      | [a, b] =>
        cases ha : a.isInstInt <;> cases hb : b.isInstInt <;>
          simp [parse_tuple, isValid2IntSeqLine, ha, hb]
      | a :: b :: c :: rest => simp [parse_tuple, isValid2IntSeqLine]
    | list xs =>
      match xs with
      | [] => simp [parse_tuple, isValid2IntSeqLine]
      | [a] => simp [parse_tuple, isValid2IntSeqLine]
      | [a, b] =>
        cases ha : a.isInstInt <;> cases hb : b.isInstInt <;>
          simp [parse_tuple, isValid2IntSeqLine, ha, hb]
      | a :: b :: c :: rest => simp [parse_tuple, isValid2IntSeqLine]

/-- The loader's line loop fails exactly when some non-blank line is not
a 2-element tuple/list of Python ints; blank lines are skipped. -/
theorem parseLines_error_iff (lines : List Line) :
    (∃ e, parseLines lines = .error e) ↔
    ∃ l ∈ lines, l.isBlank = false ∧ isValid2IntSeqLine l = false := by
  induction lines with
  | nil => simp [parseLines]
  | cons l ls ih =>
    cases hbl : l.isBlank with
    | true =>
      have hstep : parseLines (l :: ls) = parseLines ls := by
        rw [parseLines, if_pos hbl]
      rw [hstep, ih]
      constructor
      · rintro ⟨x, hx, hp⟩; exact ⟨x, List.mem_cons_of_mem _ hx, hp⟩
      · rintro ⟨x, hx, hp⟩
        rcases List.mem_cons.mp hx with rfl | hx'
        · rw [hbl] at hp; exact absurd hp.1 (by simp)
        · exact ⟨x, hx', hp⟩
    | false =>
      cases hpt : parse_tuple l with
      | error e =>
        have hli : parseLines (l :: ls) = .error e := by
          rw [parseLines, if_neg (by simp [hbl]), hpt]
        have hval : isValid2IntSeqLine l = false :=
          (parse_tuple_error_iff l).mp ⟨e, hpt⟩
        exact ⟨fun _ => ⟨l, List.mem_cons_self _ _, hbl, hval⟩,
               fun _ => ⟨e, hli⟩⟩
      | ok p =>
        have hval : isValid2IntSeqLine l = true := by
          cases h : isValid2IntSeqLine l
          · obtain ⟨e, he⟩ := (parse_tuple_error_iff l).mpr h
            rw [hpt] at he; exact Except.noConfusion he
          · rfl
        have hstep : ∀ e, parseLines (l :: ls) = .error e ↔ parseLines ls = .error e := by
          intro e
          rw [parseLines, if_neg (by simp [hbl]), hpt]
          cases hr : parseLines ls <;> simp
        constructor
        · rintro ⟨e, he⟩
          obtain ⟨x, hx, hp⟩ := ih.mp ⟨e, (hstep e).mp he⟩
          exact ⟨x, List.mem_cons_of_mem _ hx, hp⟩
        · rintro ⟨x, hx, hp⟩
          rcases List.mem_cons.mp hx with rfl | hx'
          · rw [hval] at hp; exact absurd hp.2 (by simp)
          · obtain ⟨e, he⟩ := ih.mpr ⟨x, hx', hp⟩
            exact ⟨e, (hstep e).mpr he⟩

/-- `load_bouts` fails exactly when its line loop does (the sort cannot
fail). -/
theorem load_bouts_error_iff (lines : List Line) :
    (∃ e, load_bouts lines = .error e) ↔ (∃ e, parseLines lines = .error e) := by
  unfold load_bouts
  cases hr : parseLines lines <;> simp

/-- C6 (counterexample): the loader does not fail on every non-blank
line that is not a syntactically valid 2-element integer tuple.  The
single line `[1, 2]` is a list, not a tuple, yet `load_bouts` accepts it
and returns `(1, 2)` instead of raising a parse error. -/
theorem C6_list_line_accepted_cex :
    load_bouts [Line.lit (.list [.int 1, .int 2])] = .ok [(1, 2)] ∧
    (Line.lit (.list [.int 1, .int 2])).isBlank = false ∧
    isValid2IntTupleLine (Line.lit (.list [.int 1, .int 2])) = false :=
  ⟨rfl, rfl, rfl⟩

/-- C6 (amended): the loader fails with a parse error if and only if
some non-blank line is not a syntactically valid 2-element *sequence
(tuple or list)* whose members are Python ints (`bool` included, being
an `int` subtype); blank lines are skipped silently and never cause an
error. -/
theorem C6_load_error_iff_invalid_line (lines : List Line) :
    (∃ e, load_bouts lines = .error e) ↔
    ∃ l ∈ lines, l.isBlank = false ∧ isValid2IntSeqLine l = false :=
  (load_bouts_error_iff lines).trans (parseLines_error_iff lines)

/-- C7 (counterexample): with the sample count configured to 0 and the
video capability unavailable, the Clip Extractor does not fail — the
`SAMPLES_PER_BEHAVIOUR <= 0` early return precedes the dependency
check, so it returns an empty list without touching the video. -/
theorem C7_zero_samples_no_error_cex :
    (extract_sample_clips false 0 [(0, 100)] "walk").result = .ok [] ∧
    (extract_sample_clips false 0 [(0, 100)] "walk").openedVideo = false :=
  ⟨rfl, rfl⟩

/-- C7 (amended): whenever the video capability is unavailable *and the
configured sample count is positive*, the Clip Extractor fails with the
missing-dependency error before opening the video or writing any clip,
regardless of the bout sequence. -/
theorem C7_missing_dependency_before_extraction (samples : Int)
    (bouts : List (Int × Int)) (behaviour : String) (hpos : 0 < samples) :
    extract_sample_clips false samples bouts behaviour =
      ⟨.error "moviepy missing", false, []⟩ := by
  unfold extract_sample_clips
  rw [if_neg (by omega), if_pos (by decide)]

/-- C7 witness: the amended theorem applied at sample count 1. -/
theorem C7_missing_dependency_witness :
    (0 : Int) < 1 ∧
    extract_sample_clips false 1 [(0, 100)] "walk" =
      ⟨.error "moviepy missing", false, []⟩ :=
  ⟨by decide, C7_missing_dependency_before_extraction 1 [(0, 100)] "walk" (by decide)⟩

/-- Every pair in a successful parse of the line loop comes from
`parse_tuple` on one of the lines. -/
theorem parseLines_ok_mem (lines : List Line) (bs : List (Int × Int))
    (h : parseLines lines = .ok bs) (p : Int × Int) (hp : p ∈ bs) :
    ∃ l ∈ lines, parse_tuple l = .ok p := by
  induction lines generalizing bs with
  | nil =>
    rw [parseLines] at h
    injection h with h'
    subst h'
    simp at hp
  | cons l ls ih =>
    rw [parseLines] at h
    cases hbl : l.isBlank with
    | true =>
      rw [if_pos hbl] at h
      obtain ⟨x, hx, hx2⟩ := ih bs h hp
      exact ⟨x, List.mem_cons_of_mem _ hx, hx2⟩
    | false =>
      rw [if_neg (by simp [hbl])] at h
      cases hpt : parse_tuple l with
      | error e => rw [hpt] at h; exact Except.noConfusion h
      | ok q =>
        rw [hpt] at h
        cases hr : parseLines ls with
        | error e => rw [hr] at h; exact Except.noConfusion h
        | ok ps =>
          rw [hr] at h
          injection h with h'
          subst h'
          rcases List.mem_cons.mp hp with rfl | hp'
          · exact ⟨l, List.mem_cons_self _ _, hpt⟩
          · obtain ⟨x, hx, hx2⟩ := ih ps hr hp'
            exact ⟨x, List.mem_cons_of_mem _ hx, hx2⟩

/-- C8 (counterexample): the loader performs no `start ≤ end`
validation.  The file whose single line is `(5, 2)` loads successfully,
and the returned bout has `end = 2 < 5 = start` (duration `-2`). -/
theorem C8_loader_accepts_reversed_cex :
    load_bouts [Line.lit (.tuple [.int 5, .int 2])] = .ok [(5, 2)] ∧
    (2 : Int) < 5 :=
  ⟨rfl, by decide⟩

/-- C8 (amended): every bout returned by a successful `load_bouts` has
`end ≥ start` provided every line's parsed pair does — the loader
preserves parsed pairs (up to sorting) and itself validates nothing. -/
theorem C8_loaded_bouts_wellformed (lines : List Line)
    (bouts : List (Int × Int)) (hok : load_bouts lines = .ok bouts)
    (hl : ∀ l ∈ lines, lineEndGeStart l = true) :
    ∀ p ∈ bouts, p.1 ≤ p.2 := by
  intro p hp
  unfold load_bouts at hok
  cases hr : parseLines lines with
  | error e => rw [hr] at hok; exact Except.noConfusion hok
  | ok bs =>
    rw [hr] at hok
    injection hok with h'
    subst h'
    have hmem : p ∈ bs := (List.perm_insertionSort _ bs).mem_iff.mp hp
    obtain ⟨l, hlm, hpt⟩ := parseLines_ok_mem lines bs hr p hmem
    have hv := hl l hlm
    unfold lineEndGeStart at hv
    rw [hpt] at hv
    simpa using hv

/-- C8 witness: the amended theorem applied to the one-line file
`(1, 3)`. -/
theorem C8_loaded_bouts_wellformed_witness :
    load_bouts [Line.lit (.tuple [.int 1, .int 3])] = .ok [(1, 3)] ∧
    (∀ l ∈ [Line.lit (.tuple [.int 1, .int 3])], lineEndGeStart l = true) ∧
    (∀ p ∈ [((1 : Int), (3 : Int))], p.1 ≤ p.2) :=
  ⟨rfl, by decide,
    C8_loaded_bouts_wellformed [Line.lit (.tuple [.int 1, .int 3])]
      [(1, 3)] rfl (by decide)⟩

/-- Entries with an empty artifact list contribute no writes: filtering
them out of the mapping leaves the emitted section sequence unchanged. -/
theorem flatMap_sectionChunks_filter (m : List (String × List String)) :
    (m.filter fun p => !p.2.isEmpty).flatMap (fun p => sectionChunks p.1 p.2) =
    m.flatMap fun p => sectionChunks p.1 p.2 := by
  induction m with
  | nil => rfl
  | cons p ps ih =>
    cases he : p.2.isEmpty with
    | true =>
      have hsec : sectionChunks p.1 p.2 = [] := by rw [sectionChunks, if_pos he]
      simp [List.filter_cons, he, hsec, ih]
    | false =>
      simp [List.filter_cons, he, ih]

/-- C9: a behavior mapped to an empty artifact list contributes no
section to the emitted HTML — the document written for any mapping
equals the document written for the mapping with all empty-list
behaviors removed, so neither a heading nor any element for them
appears. -/
theorem C9_empty_behavior_skipped (m : List (String × List String)) :
    write_html_gallery m =
    write_html_gallery (m.filter fun p => !p.2.isEmpty) := by
  unfold write_html_gallery
  rw [flatMap_sectionChunks_filter]

/-- Artifacts whose lower-cased extension is in neither extension set
produce no writes at all. -/
theorem flatMap_assetChunks_nil (assets : List String)
    (hext : ∀ a ∈ assets, strLower (pySuffix a) ∉ IMG_EXTENSIONS ∧
      strLower (pySuffix a) ∉ VIDEO_EXTENSIONS) :
    assets.flatMap assetChunks = [] := by
  induction assets with
  | nil => rfl
  | cons a as ih =>
    have h1 := (hext a (List.mem_cons_self _ _)).1
    have h2 := (hext a (List.mem_cons_self _ _)).2
    have ha : assetChunks a = [] := by
      simp only [assetChunks]
      rw [if_neg h1, if_neg h2]
    have has : as.flatMap assetChunks = [] :=
      ih fun x hx => hext x (List.mem_cons_of_mem _ hx)
    simp [ha, has]

/-- C10: a behavior with a non-empty artifact list gets its heading and
container even when no artifact is renderable: if every artifact's
lower-cased extension is outside both the image and the video extension
sets, the document still contains the behavior's heading/container
write, and its section consists of exactly that write and the closing
`</div>` — no `img` or `video` element. -/
theorem C10_heading_despite_unrenderable (m : List (String × List String))
    (b : String) (assets : List String) (hmem : (b, assets) ∈ m)
    (hne : assets ≠ [])
    (hext : ∀ a ∈ assets, strLower (pySuffix a) ∉ IMG_EXTENSIONS ∧
      strLower (pySuffix a) ∉ VIDEO_EXTENSIONS) :
    headingChunk b ∈ write_html_gallery m ∧
    sectionChunks b assets = [headingChunk b, "</div>\n"] := by
  have hAssets : assets.flatMap assetChunks = [] :=
    flatMap_assetChunks_nil assets hext
  have hsec : sectionChunks b assets = [headingChunk b, "</div>\n"] := by
    cases assets with
    | nil => exact absurd rfl hne
    | cons a as =>
      rw [sectionChunks, if_neg (by simp), hAssets]
      rfl
  refine ⟨?_, hsec⟩
  unfold write_html_gallery
  refine List.mem_append.mpr (Or.inl (List.mem_append.mpr (Or.inr ?_)))
  refine List.mem_flatMap.mpr ⟨(b, assets), hmem, ?_⟩
  rw [hsec]
  exact List.mem_cons_self _ _

/-- C10 witness: the mapping `[("walk", ["notes.txt"])]` — a non-empty
artifact list whose only entry has the unrecognized extension `.txt`. -/
theorem C10_heading_despite_unrenderable_witness :
    (("walk", ["notes.txt"]) ∈ [("walk", ["notes.txt"])]) ∧
    (["notes.txt"] ≠ ([] : List String)) ∧
    (∀ a ∈ ["notes.txt"], strLower (pySuffix a) ∉ IMG_EXTENSIONS ∧
      strLower (pySuffix a) ∉ VIDEO_EXTENSIONS) ∧
    (headingChunk "walk" ∈ write_html_gallery [("walk", ["notes.txt"])] ∧
      sectionChunks "walk" ["notes.txt"] = [headingChunk "walk", "</div>\n"]) :=
  ⟨by decide, by decide, by decide,
    C10_heading_despite_unrenderable [("walk", ["notes.txt"])] "walk"
      ["notes.txt"] (by decide) (by decide) (by decide)⟩

end BehaviorAnalysis
